import Mathlib

/-!
Verification of the community-identity and outline-conversion core of
`lemmy2opml.py` (a tool converting between Lemmy subscription lists and
OPML documents).

Modelling conventions:

* URLs are modelled at the `urlsplit` component level: a URL is the record
  `⟨scheme, netloc, path, query, fragment⟩` produced by Python's
  `urllib.parse.urlsplit`, and `urlunsplit` calls in the source become
  direct construction of such a record.  All path-shape logic
  (`path.split('/')[1:]`, `os.path.splitext`) is translated faithfully on
  the path component.
* Python exceptions become an `Except PyErr` result.  The distinction
  between exception classes matters (the source catches `ValueError` and
  `AttributeError` but not `IndexError`/`KeyError`), so `PyErr` keeps the
  class.  Messages are kept where a claim depends on them; interpolations
  of the raw URL string (unavailable in the component-level model) and the
  nondeterministically ordered Python `set` repr in one message are
  replaced by fixed text, noted at each site.
* `urlencode` percent-encoding is not modelled: the only keys used are
  `sort` (whose values come from the fixed alphanumeric token table) and
  `magazine`; no claim depends on the encoded form of a query string.
* Python `str.split(sep)` (single-character separator) is `pySplit`,
  `os.path.splitext` is `pySplitext`, both translated from CPython.
-/

/-- Python exception classes raised by the translated code.  `valueError`
carries the message; `keyError` carries the missing key. -/
inductive PyErr where
  | valueError (msg : String)
  | indexError
  | attributeError
  | keyError (key : String)
deriving DecidableEq, Repr

instance {ε α : Type} [DecidableEq ε] [DecidableEq α] : DecidableEq (Except ε α) := fun a b =>
  match a, b with
  | .ok x, .ok y => decidable_of_iff (x = y) (by simp)
  | .error x, .error y => decidable_of_iff (x = y) (by simp)
  | .ok _, .error _ => isFalse (by simp)
  | .error _, .ok _ => isFalse (by simp)

/-- The result of Python's `urllib.parse.urlsplit`: a 5-tuple
`(scheme, netloc, path, query, fragment)`. -/
structure UrlSplit where
  scheme : String
  netloc : String
  path : String
  query : String
  fragment : String
deriving DecidableEq, Repr

/-- Python `str.split(sep)` for a single-character separator, on the
underlying character list: `"" → [""]`, `"/c/x" → ["", "c", "x"]`. -/
def splitChars (sep : Char) : List Char → List (List Char)
  | [] => [[]]
  | c :: rest =>
    if c == sep then [] :: splitChars sep rest
    else
      match splitChars sep rest with
      | [] => [[c]]
      | g :: gs => (c :: g) :: gs

/-- Python `s.split(sep)` for a single-character separator. -/
def pySplit (s : String) (sep : Char) : List String :=
  (splitChars sep s.data).map (fun l => String.mk l)

/-- Python `str.rfind` on a character list: index of the last occurrence of
`c`, or `-1` when absent. -/
def pyRfind (l : List Char) (c : Char) : Int :=
  match l with
  | [] => -1
  | x :: xs =>
    let r := pyRfind xs c
    if r ≥ 0 then r + 1
    else if x == c then 0 else -1

/-- `os.path.splitext` (posixpath, sep `/`, extsep `.`): split off the
extension beginning at the last dot of the final path component, unless
every character of that component before the dot is itself a dot
(so `".xml"` has no extension). -/
def pySplitext (s : String) : String × String :=
  let p := s.data
  let sepIndex := pyRfind p '/'
  let extIndex := pyRfind p '.'
  if extIndex > sepIndex then
    let fStart := (sepIndex + 1).toNat
    if ((p.drop fStart).take (extIndex.toNat - fStart)).all (fun ch => ch == '.') then
      (s, "")
    else
      (String.mk (p.take extIndex.toNat), String.mk (p.drop extIndex.toNat))
  else (s, "")

/-- `SortBy`: the platform-specific sort tokens for one normalised sort
name; `none` means the sorting method is unsupported on that platform. -/
structure SortBy where
  lemmy : Option String
  kbin : Option String
deriving DecidableEq, Repr

/-- `UNSUPPORTED_SORT_BY` from the source (unused by the claims, kept for
completeness). -/
def UNSUPPORTED_SORT_BY : SortBy := ⟨none, none⟩

/-- `SORT_BY_VALUES`: the sort-order table, an insertion-ordered dict
modelled as an association list. -/
def SORT_BY_VALUES : List (String × SortBy) :=
  [("top", ⟨some "TopAll", some "top"⟩),
   ("hot", ⟨some "Hot", some "hot"⟩),
   ("active", ⟨some "Active", some "active"⟩),
   ("new", ⟨some "New", some "newest"⟩),
   ("old", ⟨some "Old", none⟩),
   ("mostcomments", ⟨some "MostComments", some "commented"⟩),
   ("newcomments", ⟨some "NewComments", none⟩)]

/-- In the source this text is `{set(SORT_BY_VALUES.keys())}`, a Python
`set` repr whose element order is unspecified; a fixed rendering is used
here.  Claims depend only on the offending value being named. -/
def sortKeysSetRepr : String :=
  "\x7b'top', 'hot', 'active', 'new', 'old', 'mostcomments', 'newcomments'\x7d"

/-- `LemmyCommunity`.  The Python field `instance` is named `inst` here
(`instance` is a Lean keyword); all other field names match the source. -/
structure LemmyCommunity where
  inst : String
  name : String
  id : Option Int
  title : Option String
  description : Option String
  is_kbin : Bool
deriving DecidableEq, Repr

namespace LemmyCommunity

/-- `LemmyCommunity.from_url`: parse a community profile URL.  The path
tokens are `parsed.path.split('/')[1:]`; `path_tokens[0]` must be `"c"`
(Lemmy) or `"m"` (Kbin), else `ValueError`; `path_tokens[1]` is the name.
Missing indices raise `IndexError` (uncaught in the source). -/
def from_url (u : UrlSplit) (id : Option Int) (title : Option String)
    (description : Option String) : Except PyErr LemmyCommunity :=
  let path_tokens := (pySplit u.path '/').drop 1
  match path_tokens with
  | [] => .error .indexError
  | t0 :: rest =>
    -- message in the source interpolates the original URL string
    match (if t0 = "c" then .ok false
           else if t0 = "m" then .ok true
           else .error (.valueError "URL does not appear to be a Lemmy community URL") :
           Except PyErr Bool) with
    | .error e => .error e
    | .ok is_kbin =>
      match rest with
      | [] => .error .indexError
      | n :: _ => .ok ⟨u.netloc, n, id, title, description, is_kbin⟩

/-- `LemmyCommunity.from_feed_url`: parse a community RSS feed URL.
`path_tokens[0]` must be `"feeds"` and `path_tokens[1]` must be `"c"`
(else `ValueError`); the name is `splitext(path_tokens[2])[0]`.  Missing
indices raise `IndexError` (uncaught in the source). -/
def from_feed_url (u : UrlSplit) : Except PyErr LemmyCommunity :=
  let path_tokens := (pySplit u.path '/').drop 1
  match path_tokens with
  | [] => .error .indexError
  | t0 :: rest =>
    if t0 ≠ "feeds" then
      .error (.valueError "URL does not appear to be a Lemmy feed URL")
    else
      match rest with
      | [] => .error .indexError
      | t1 :: rest2 =>
        if t1 ≠ "c" then
          .error (.valueError "URL does not appear to be a Lemmy community feed URL")
        else
          match rest2 with
          | [] => .error .indexError
          | t2 :: _ => .ok ⟨u.netloc, (pySplitext t2).1, none, none, none, false⟩

/-- `LemmyCommunity._resolve_sort_by`: convert a normalised sort name to
the platform token for this community's platform.  A name outside
`SORT_BY_VALUES` raises `ValueError` naming the value (the `KeyError` of
the dict lookup is caught and re-raised); a name whose token for this
platform is `None` raises `ValueError`. -/
def _resolve_sort_by (c : LemmyCommunity) (sort_by_str : Option String) :
    Except PyErr (Option String) :=
  match sort_by_str with
  | none => .ok none
  | some s =>
    match SORT_BY_VALUES.lookup s with
    | none => .error (.valueError ("Value '" ++ s ++ "' not in " ++ sortKeysSetRepr))
    | some ambiguous_sort_by =>
      match (if c.is_kbin then ambiguous_sort_by.kbin else ambiguous_sort_by.lemmy) with
      | none => .error (.valueError ("Sorting by '" ++ s ++ "' not supported for "
          ++ (if c.is_kbin then "Kbin" else "Lemmy") ++ " communities."))
      | some actual_sort_by => .ok (some actual_sort_by)

/-- `LemmyCommunity.html_url`: render the profile URL.  A failing
`_resolve_sort_by` is caught and the sort is dropped.  Kbin encodes the
sort as an extra path segment, Lemmy as a `sort=` query parameter.  The
result is `urlunsplit(("https", self.instance, path, q, ""))`. -/
def html_url (c : LemmyCommunity) (sort_by : Option String) : UrlSplit :=
  let sb : Option String :=
    match _resolve_sort_by c sort_by with
    | .ok v => v
    | .error _ => none
  let path :=
    if c.is_kbin then
      "/m/" ++ c.name ++ (match sb with | some t => "/" ++ t | none => "")
    else "/c/" ++ c.name
  let q :=
    if c.is_kbin then ""
    else match sb with | some t => "sort=" ++ t | none => ""
  ⟨"https", c.inst, path, q, ""⟩

/-- `LemmyCommunity.rss_url`: render the feed URL.  For Kbin a requested
sort is ignored (warning only, value unused); for Lemmy a failing
`_resolve_sort_by` is caught and the sort dropped.  Kbin feeds use the
fixed `/rss?magazine=<name>` form, Lemmy `/feeds/c/<name>.xml` with an
optional `sort=` query. -/
def rss_url (c : LemmyCommunity) (sort_by : Option String) : UrlSplit :=
  let sb : Option String :=
    match sort_by with
    | none => none
    | some s =>
      if c.is_kbin then some s
      else
        match _resolve_sort_by c (some s) with
        | .ok v => v
        | .error _ => none
  let path := if c.is_kbin then "/rss" else "/feeds/c/" ++ c.name ++ ".xml"
  let q :=
    if c.is_kbin then "magazine=" ++ c.name
    else match sb with | some t => "sort=" ++ t | none => ""
  ⟨"https", c.inst, path, q, ""⟩

/-- `LemmyCommunity.text`: the `!<community>@<instance>` handle. -/
def text (c : LemmyCommunity) : String :=
  "!" ++ c.name ++ "@" ++ c.inst

end LemmyCommunity

/-- An `opyml` `Outline` node: `type`, `text`, `title`, `description`,
`xmlUrl`, `htmlUrl` attributes (the attributes the source consumes or
produces; the library's remaining attributes are never touched) and the
ordered child list.  URL attributes hold component-level URLs per the
modelling conventions; `none` is Python `None`. -/
inductive Outline where
  | mk (text : String) (otype : Option String) (title : Option String)
       (description : Option String) (xmlUrl : Option UrlSplit)
       (htmlUrl : Option UrlSplit) (outlines : List Outline)
deriving Repr

/-- The `text` attribute. -/
def Outline.text : Outline → String
  | .mk t _ _ _ _ _ _ => t

/-- The `type` attribute (named `otype`: `type` is reserved in Lean). -/
def Outline.otype : Outline → Option String
  | .mk _ ty _ _ _ _ _ => ty

/-- The `title` attribute. -/
def Outline.title : Outline → Option String
  | .mk _ _ ti _ _ _ _ => ti

/-- The `description` attribute. -/
def Outline.description : Outline → Option String
  | .mk _ _ _ d _ _ _ => d

/-- The `xmlUrl` attribute (feed URL). -/
def Outline.xmlUrl : Outline → Option UrlSplit
  | .mk _ _ _ _ x _ _ => x

/-- The `htmlUrl` attribute (profile URL). -/
def Outline.htmlUrl : Outline → Option UrlSplit
  | .mk _ _ _ _ _ h _ => h

/-- The child outlines. -/
def Outline.outlines : Outline → List Outline
  | .mk _ _ _ _ _ _ ch => ch

/-- `_walk_outlines`: recursively traverse a tree of outlines (here: the
`outlines` list of the top-level element), descending into nodes whose
`type` is `"category"` and yielding every other node, in document order.
(A `None` type is not `"category"`, so such nodes are yielded.) -/
def walkOutlines : List Outline → List Outline
  | [] => []
  | Outline.mk tx ty ti d x h ch :: rest =>
    (if ty == some "category" then walkOutlines ch
     else [Outline.mk tx ty ti d x h ch]) ++ walkOutlines rest

namespace LemmyCommunity

/-- `LemmyCommunity.from_url(outline.html_url)` where the attribute may be
`None`: `urlsplit(None)` raises `AttributeError` (`None` has no string
methods), which is what the source's `except AttributeError` arm catches. -/
def from_url_opt (o : Option UrlSplit) : Except PyErr LemmyCommunity :=
  match o with
  | none => .error .attributeError
  | some u => from_url u none none none

/-- `LemmyCommunity.from_feed_url(outline.xml_url)` with a possibly-`None`
attribute, as in `from_url_opt`. -/
def from_feed_url_opt (o : Option UrlSplit) : Except PyErr LemmyCommunity :=
  match o with
  | none => .error .attributeError
  | some u => from_feed_url u

/-- `LemmyCommunity.from_outline`: try `from_url` on `htmlUrl`, then
`from_feed_url` on `xmlUrl`, catching `ValueError` and `AttributeError`
from each attempt; if both fail, raise `ValueError`.  Any other exception
(notably `IndexError` from the URL parsers) propagates. -/
def from_outline (o : Outline) : Except PyErr LemmyCommunity :=
  match from_url_opt o.htmlUrl with
  | .ok c => .ok c
  | .error (.valueError _) | .error .attributeError =>
    (match from_feed_url_opt o.xmlUrl with
     | .ok c => .ok c
     | .error (.valueError _) | .error .attributeError =>
       .error (.valueError "Could not infer Lemmy community from Outline object.")
     | .error e => .error e)
  | .error e => .error e

/-- The loop of `LemmyCommunity.from_opml`: accumulate parsed communities,
counting outlines whose `from_outline` raises `ValueError`; any other
exception propagates (aborting the whole conversion). -/
def from_opml_loop : List Outline → List LemmyCommunity → Nat →
    Except PyErr (List LemmyCommunity × Nat)
  | [], communities, failed => .ok (communities, failed)
  | o :: rest, communities, failed =>
    match from_outline o with
    | .ok c => from_opml_loop rest (communities ++ [c]) failed
    | .error (.valueError _) => from_opml_loop rest communities (failed + 1)
    | .error e => .error e

/-- `LemmyCommunity.from_opml`: flatten an OPML body (its top-level
outline list) to the ordered list of parsed communities plus the count of
non-category outlines that raised `ValueError`. -/
def from_opml (body : List Outline) : Except PyErr (List LemmyCommunity × Nat) :=
  from_opml_loop (walkOutlines body) [] 0

/-- `LemmyCommunity.to_outline`: build the OPML leaf for a community:
type `"rss"`, text the `!name@instance` handle, title carried over,
description only when requested, `xmlUrl`/`htmlUrl` the rendered feed and
profile URLs. -/
def to_outline (c : LemmyCommunity) (sort_by : Option String)
    (include_description : Bool) : Outline :=
  Outline.mk c.text (some "rss") c.title
    (if include_description then c.description else none)
    (some (c.rss_url sort_by)) (some (c.html_url sort_by)) []

end LemmyCommunity

/-- A Lemmy API community record as consumed by
`LemmyCommunity.from_dict`: the four keys the source reads, each possibly
absent (`none` models an absent key; a JSON `null` value is not
distinguished from an absent key, no claim depends on it).  `actor_id` is
a profile URL (component-level, per the modelling conventions). -/
structure ApiRecord where
  actor_id : Option UrlSplit
  id : Option Int
  title : Option String
  description : Option String
deriving DecidableEq, Repr

/-- Python `data[key]`: the value, or `KeyError(key)` when absent. -/
def dictGet {α : Type} (field : Option α) (key : String) : Except PyErr α :=
  match field with
  | some v => .ok v
  | none => .error (.keyError key)

/-- `LemmyCommunity.from_dict`: parse an API record.  The source reads
`data["actor_id"]` and `data["id"]` with bracket lookups (raising
`KeyError` when absent) and `data.get("title")`/`data.get("description")`
(defaulting to `None`), then delegates to `from_url`. -/
def LemmyCommunity.from_dict (data : ApiRecord) : Except PyErr LemmyCommunity :=
  match dictGet data.actor_id "actor_id" with
  | .error e => .error e
  | .ok url =>
    match dictGet data.id "id" with
    | .error e => .error e
    | .ok i => LemmyCommunity.from_url url (some i) data.title data.description

/-- One step of the export loop of `LemmyClient.subscribed_to_opml` in
category mode: append a leaf to the `cat_outlines` entry for `h` (Python
dict insertion order: an existing key keeps its position, a new key is
appended at the end). -/
def catAppend (cat : List (String × List Outline)) (h : String) (leaf : Outline) :
    List (String × List Outline) :=
  match cat with
  | [] => [(h, [leaf])]
  | (k, ls) :: rest =>
    if k == h then (k, ls ++ [leaf]) :: rest
    else (k, ls) :: catAppend rest h leaf

/-- The body-construction part of `LemmyClient.subscribed_to_opml`
(lines 472–487): the `OPML` document's top-level outline list built from
the subscribed communities.  With `categories` unset, one leaf per
community in order; with `categories` set, leaves are bucketed into one
`type="category"` node per instance (`cat_outlines`, an insertion-ordered
dict) and the category nodes are appended to the body in dict order.
The head metadata (lines 460–471) is plain field assignment from the
caller's options and is not involved in any claim. -/
def subscribed_to_opml_body (communities : List LemmyCommunity)
    (categories : Bool) (sort_by : Option String) : List Outline :=
  if categories then
    (communities.foldl
        (fun cat c => catAppend cat c.inst (c.to_outline sort_by false)) []).map
      (fun p => Outline.mk p.1 (some "category") none none none none p.2)
  else
    communities.map (fun c => c.to_outline sort_by false)

/-- Specification-side helper (the claims' words, compared against the
code): the distinct elements of a list in first-seen order. -/
def firstSeen : List String → List String
  | [] => []
  | h :: t => h :: firstSeen (t.filter (fun x => x != h))
termination_by l => l.length
decreasing_by
  simp only [List.length_cons]
  exact Nat.lt_succ_of_le (List.length_filter_le _ _)
/-! ## General lemmas about the string helpers -/

theorem data_append (a b : String) : (a ++ b).data = a.data ++ b.data := by
  cases a; cases b; rfl

theorem splitChars_no_sep {sep : Char} {l : List Char} (h : sep ∉ l) :
    splitChars sep l = [l] := by
  induction l with
  | nil => rfl
  | cons c rest ih =>
    rw [List.mem_cons, not_or] at h
    have hc : (c == sep) = false := beq_eq_false_iff_ne.mpr (Ne.symm h.1)
    simp [splitChars, hc, ih h.2]

theorem splitChars_profile {c0 : Char} (hc0 : (c0 == '/') = false) {d : List Char}
    (h : '/' ∉ d) : splitChars '/' ('/' :: c0 :: '/' :: d) = [[], [c0], d] := by
  simp [splitChars, hc0, splitChars_no_sep h]

/-! ## Round-trip helper lemmas (used by the C1 and C5 theorems) -/

theorem pySplit_c_name {name : String} (h : '/' ∉ name.data) :
    pySplit ("/c/" ++ name) '/' = ["", "c", name] := by
  unfold pySplit
  have h1 : ("/c/" ++ name).data = '/' :: 'c' :: '/' :: name.data := by
    rw [data_append]; rfl
  rw [h1, splitChars_profile (by decide) h]
  rfl

theorem pySplit_m_name {name : String} (h : '/' ∉ name.data) :
    pySplit ("/m/" ++ name) '/' = ["", "m", name] := by
  unfold pySplit
  have h1 : ("/m/" ++ name).data = '/' :: 'm' :: '/' :: name.data := by
    rw [data_append]; rfl
  rw [h1, splitChars_profile (by decide) h]
  rfl

theorem str_append_empty (s : String) : s ++ "" = s := by
  cases s with
  | mk d => show String.mk (d ++ []) = String.mk d
            rw [List.append_nil]

theorem html_url_no_sort (c : LemmyCommunity) :
    c.html_url none
      = ⟨"https", c.inst, (if c.is_kbin then "/m/" ++ c.name else "/c/" ++ c.name), "", ""⟩ := by
  cases hk : c.is_kbin <;>
    simp [LemmyCommunity.html_url, LemmyCommunity._resolve_sort_by, hk, str_append_empty]

theorem from_url_html_roundtrip (c : LemmyCommunity) (h : '/' ∉ c.name.data) :
    LemmyCommunity.from_url (c.html_url none) none none none
      = .ok ⟨c.inst, c.name, none, none, none, c.is_kbin⟩ := by
  rw [html_url_no_sort]
  cases hk : c.is_kbin
  · simp [LemmyCommunity.from_url, pySplit_c_name h]
  · simp [LemmyCommunity.from_url, pySplit_m_name h]

/-! ## C5 -/

/-- C5: the profile-URL round trip holds only for records whose `name`
contains no `/`; this closed counterexample shows the claim as stated
fails: the record `(host=example.org, name=a/b, standard)` renders to a
profile URL that parses back with name `a`, not `a/b`. -/
theorem c5_counterexample :
    LemmyCommunity.from_url
        (LemmyCommunity.html_url ⟨"example.org", "a/b", none, none, none, false⟩ none)
        none none none
      = .ok ⟨"example.org", "a", none, none, none, false⟩ := by decide

/-- C5 (amended): for every community record whose `name` contains no `/`
character, parsing the profile URL rendered with no sort name yields a
record with the same host, name and platform variant (and no id, title or
description). -/
theorem c5_amended_roundtrip (c : LemmyCommunity) (h : '/' ∉ c.name.data) :
    LemmyCommunity.from_url (c.html_url none) none none none
      = .ok ⟨c.inst, c.name, none, none, none, c.is_kbin⟩ :=
  from_url_html_roundtrip c h

/-- C5 witness: the amended round trip at a concrete standard-variant and
a concrete alternate-variant record. -/
theorem c5_witness :
    LemmyCommunity.from_url
        (LemmyCommunity.html_url ⟨"lemmy.ml", "rust", none, none, none, false⟩ none)
        none none none
      = .ok ⟨"lemmy.ml", "rust", none, none, none, false⟩
    ∧ LemmyCommunity.from_url
        (LemmyCommunity.html_url ⟨"kbin.social", "tech", none, none, none, true⟩ none)
        none none none
      = .ok ⟨"kbin.social", "tech", none, none, none, true⟩ :=
  ⟨c5_amended_roundtrip ⟨"lemmy.ml", "rust", none, none, none, false⟩ (by decide),
   c5_amended_roundtrip ⟨"kbin.social", "tech", none, none, none, true⟩ (by decide)⟩

/-! ## C10 -/

/-- C10: for every community record and every (possibly absent) sort name,
the rendered profile URL and feed URL have scheme `https` and host exactly
the record's host field (so a record parsed from an `http` URL is
silently re-rendered as `https`). -/
theorem c10_render_https_host (c : LemmyCommunity) (s : Option String) :
    (c.html_url s).scheme = "https" ∧ (c.html_url s).netloc = c.inst
      ∧ (c.rss_url s).scheme = "https" ∧ (c.rss_url s).netloc = c.inst :=
  ⟨rfl, rfl, rfl, rfl⟩

/-! ## C6 -/

theorem resolve_sort_by_none (c : LemmyCommunity) :
    c._resolve_sort_by none = .ok none := rfl

/-- C6: whenever the requested sort name is unsupported for the record
(`_resolve_sort_by` raises), both URL renderers fall back to no sort
order: the rendered URL equals the one rendered with no sort name. -/
theorem c6_unsupported_sort_degrades (c : LemmyCommunity) (s : String)
    (h : ∃ e, c._resolve_sort_by (some s) = .error e) :
    c.html_url (some s) = c.html_url none ∧ c.rss_url (some s) = c.rss_url none := by
  obtain ⟨e, he⟩ := h
  constructor
  · simp only [LemmyCommunity.html_url, he, resolve_sort_by_none]
  · cases hk : c.is_kbin <;> simp [LemmyCommunity.rss_url, he, hk]

/-- C6 witness: `oldest` (normalised name `old`) is unsupported for an
alternate-variant (Kbin) record, and both renderers produce the same URL
as with no sort name at all. -/
theorem c6_witness :
    LemmyCommunity.html_url ⟨"kbin.social", "tech", none, none, none, true⟩ (some "old")
      = LemmyCommunity.html_url ⟨"kbin.social", "tech", none, none, none, true⟩ none
    ∧ LemmyCommunity.rss_url ⟨"kbin.social", "tech", none, none, none, true⟩ (some "old")
      = LemmyCommunity.rss_url ⟨"kbin.social", "tech", none, none, none, true⟩ none :=
  c6_unsupported_sort_degrades ⟨"kbin.social", "tech", none, none, none, true⟩ "old"
    ⟨.valueError "Sorting by 'old' not supported for Kbin communities.", by decide⟩

/-! ## C8 -/

/-- C8: the sort-order lookup fails with a `ValueError` naming the
offending value for every name outside the table; every name in the table
has a non-empty token for at least one platform variant; and `old` and
`newcomments` have no alternate-variant (Kbin) token. -/
theorem c8_sort_table :
    (∀ (c : LemmyCommunity) (s : String), SORT_BY_VALUES.lookup s = none →
        c._resolve_sort_by (some s)
          = .error (.valueError ("Value '" ++ s ++ "' not in " ++ sortKeysSetRepr)))
    ∧ (∀ p ∈ SORT_BY_VALUES,
        (∃ t, p.2.lemmy = some t ∧ t ≠ "") ∨ (∃ t, p.2.kbin = some t ∧ t ≠ ""))
    ∧ SORT_BY_VALUES.lookup "old" = some ⟨some "Old", none⟩
    ∧ SORT_BY_VALUES.lookup "newcomments" = some ⟨some "NewComments", none⟩ := by
  refine ⟨fun c s h => ?_, by decide, by decide, by decide⟩
  simp [LemmyCommunity._resolve_sort_by, h]

/-- C8 witness: the unknown name `bogus` fails with the error naming it,
and the `top` entry of the table has a non-empty token for some variant. -/
theorem c8_witness :
    LemmyCommunity._resolve_sort_by ⟨"lemmy.ml", "rust", none, none, none, false⟩
        (some "bogus")
      = .error (.valueError ("Value '" ++ "bogus" ++ "' not in " ++ sortKeysSetRepr))
    ∧ ((∃ t, (SortBy.mk (some "TopAll") (some "top")).lemmy = some t ∧ t ≠ "")
       ∨ (∃ t, (SortBy.mk (some "TopAll") (some "top")).kbin = some t ∧ t ≠ "")) :=
  ⟨c8_sort_table.1 ⟨"lemmy.ml", "rust", none, none, none, false⟩ "bogus" (by decide),
   c8_sort_table.2.1 ("top", ⟨some "TopAll", some "top"⟩) (by decide)⟩

/-! ## C9 -/

/-- C9 counterexample: the claim says `id` is optional, but an API record
with a parseable `actor_id` and no `id` key fails with `KeyError("id")`
instead of succeeding. -/
theorem c9_counterexample :
    LemmyCommunity.from_dict
        ⟨some ⟨"https", "lemmy.ml", "/c/rust", "", ""⟩, none, none, none⟩
      = .error (.keyError "id") := by decide

/-- C9 (amended): for every API record containing both an `actor_id` and
an `id` field, `from_dict` delegates to `from_url` with the `id` attached
and the optional `title`/`description` fields passed through (present or
absent); it therefore succeeds exactly when the `actor_id` profile URL
parses. -/
theorem c9_amended_delegates (u : UrlSplit) (i : Int) (t d : Option String) :
    LemmyCommunity.from_dict ⟨some u, some i, t, d⟩
      = LemmyCommunity.from_url u (some i) t d := rfl

/-! ## C3 -/

/-- C4 counterexample: the URL path `/feeds/c/foo` does not match the
claimed shape `/feeds/c/<name>.xml` (no `.xml` extension), yet parsing
succeeds with name `foo` — the code never checks the extension —
contradicting the claim that every other shape fails with `NotAFeedUrl`. -/
theorem c4_counterexample :
    LemmyCommunity.from_feed_url ⟨"https", "example.com", "/feeds/c/foo", "", ""⟩
      = .ok ⟨"example.com", "foo", none, none, none, false⟩ := by decide

/-- C4 (amended): parsing a feed URL is characterised by the token list
`path.split('/')[1:]`: with tokens `feeds`, `c` and a third token present
it succeeds with the third token's extension stripped as name (the
extension is never validated and further segments are ignored), always
standard variant; a nonempty token list not starting with `feeds`, or
starting with `feeds` followed by a token other than `c`, fails with the
respective `ValueError` (`NotAFeedUrl`); token lists `[]`, `["feeds"]`
and `["feeds", "c"]` raise `IndexError` instead.  These cases are
exhaustive. -/
theorem c4_amended_from_feed_url_cases :
    (∀ (u : UrlSplit) (t2 : String) (rest : List String),
        (pySplit u.path '/').drop 1 = "feeds" :: "c" :: t2 :: rest →
        LemmyCommunity.from_feed_url u
          = .ok ⟨u.netloc, (pySplitext t2).1, none, none, none, false⟩)
    ∧ (∀ (u : UrlSplit) (t0 : String) (rest : List String),
        (pySplit u.path '/').drop 1 = t0 :: rest → t0 ≠ "feeds" →
        LemmyCommunity.from_feed_url u
          = .error (.valueError "URL does not appear to be a Lemmy feed URL"))
    ∧ (∀ (u : UrlSplit) (t1 : String) (rest : List String),
        (pySplit u.path '/').drop 1 = "feeds" :: t1 :: rest → t1 ≠ "c" →
        LemmyCommunity.from_feed_url u
          = .error (.valueError "URL does not appear to be a Lemmy community feed URL"))
    ∧ (∀ (u : UrlSplit),
        ((pySplit u.path '/').drop 1 = [] ∨ (pySplit u.path '/').drop 1 = ["feeds"]
          ∨ (pySplit u.path '/').drop 1 = ["feeds", "c"]) →
        LemmyCommunity.from_feed_url u = .error .indexError) := by
  refine ⟨fun u t2 rest ht => ?_, fun u t0 rest ht h0 => ?_,
    fun u t1 rest ht h1 => ?_, fun u ht => ?_⟩
  · simp [LemmyCommunity.from_feed_url, ht]
  · simp [LemmyCommunity.from_feed_url, ht, h0]
  · simp [LemmyCommunity.from_feed_url, ht, h1]
  · rcases ht with ht | ht | ht <;> simp [LemmyCommunity.from_feed_url, ht]

/-- C4 witness: the four cases of the characterisation at concrete URLs:
`/feeds/c/foo.xml` succeeds with name `foo`, `/other/c/foo.xml` and
`/feeds/m/foo.xml` fail with the respective `ValueError`s, and `/feeds/c`
raises `IndexError`. -/
theorem c4_witness :
    LemmyCommunity.from_feed_url ⟨"https", "example.com", "/feeds/c/foo.xml", "", ""⟩
      = .ok ⟨"example.com", "foo", none, none, none, false⟩
    ∧ LemmyCommunity.from_feed_url ⟨"https", "example.com", "/other/c/foo.xml", "", ""⟩
      = .error (.valueError "URL does not appear to be a Lemmy feed URL")
    ∧ LemmyCommunity.from_feed_url ⟨"https", "example.com", "/feeds/m/foo.xml", "", ""⟩
      = .error (.valueError "URL does not appear to be a Lemmy community feed URL")
    ∧ LemmyCommunity.from_feed_url ⟨"https", "example.com", "/feeds/c", "", ""⟩
      = .error .indexError := by
  refine ⟨?_, ?_, ?_, ?_⟩
  · have h := c4_amended_from_feed_url_cases.1
      ⟨"https", "example.com", "/feeds/c/foo.xml", "", ""⟩ "foo.xml" [] (by decide)
    rw [h]; decide
  · exact c4_amended_from_feed_url_cases.2.1
      ⟨"https", "example.com", "/other/c/foo.xml", "", ""⟩ "other" ["c", "foo.xml"]
      (by decide) (by decide)
  · exact c4_amended_from_feed_url_cases.2.2.1
      ⟨"https", "example.com", "/feeds/m/foo.xml", "", ""⟩ "m" ["foo.xml"]
      (by decide) (by decide)
  · exact c4_amended_from_feed_url_cases.2.2.2
      ⟨"https", "example.com", "/feeds/c", "", ""⟩ (Or.inr (Or.inr (by decide)))

/-! ## C1 -/

theorem walkOutlines_map_to_outline (cs : List LemmyCommunity) (sortBy : Option String) :
    walkOutlines (cs.map (fun c => c.to_outline sortBy false))
      = cs.map (fun c => c.to_outline sortBy false) := by
  induction cs with
  | nil => simp [walkOutlines]
  | cons c rest ih =>
    have hc : c.to_outline sortBy false
        = Outline.mk c.text (some "rss") c.title none
            (some (c.rss_url sortBy)) (some (c.html_url sortBy)) [] := rfl
    have hne : ((some "rss" : Option String) == some "category") = false := by decide
    simp [List.map_cons, hc, walkOutlines, hne, ih]

theorem from_outline_to_outline (c : LemmyCommunity) (h : '/' ∉ c.name.data) :
    LemmyCommunity.from_outline (c.to_outline none false)
      = .ok ⟨c.inst, c.name, none, none, none, c.is_kbin⟩ := by
  simp [LemmyCommunity.from_outline, LemmyCommunity.to_outline, Outline.htmlUrl,
    LemmyCommunity.from_url_opt, from_url_html_roundtrip c h]

theorem from_opml_loop_map (cs : List LemmyCommunity)
    (h : ∀ c ∈ cs, '/' ∉ c.name.data) (acc : List LemmyCommunity) (failed : Nat) :
    LemmyCommunity.from_opml_loop (cs.map (fun c => c.to_outline none false)) acc failed
      = .ok (acc ++ cs.map (fun c => ⟨c.inst, c.name, none, none, none, c.is_kbin⟩),
             failed) := by
  induction cs generalizing acc with
  | nil => simp [LemmyCommunity.from_opml_loop]
  | cons c rest ih =>
    have hc := h c (by simp)
    have hrest : ∀ x ∈ rest, '/' ∉ x.name.data := fun x hx => h x (by simp [hx])
    simp [LemmyCommunity.from_opml_loop, from_outline_to_outline c hc, ih hrest]

theorem from_opml_build_roundtrip (cs : List LemmyCommunity)
    (h : ∀ c ∈ cs, '/' ∉ c.name.data) :
    LemmyCommunity.from_opml (subscribed_to_opml_body cs false none)
      = .ok (cs.map (fun c => ⟨c.inst, c.name, none, none, none, c.is_kbin⟩), 0) := by
  simp only [LemmyCommunity.from_opml, subscribed_to_opml_body, if_false,
    Bool.false_eq_true, walkOutlines_map_to_outline]
  simpa using from_opml_loop_map cs h [] 0

/-- C1 counterexample: the build/flatten round trip does not return the
same records for every input list.  For the single record
`(host=example.org, name=a/b, standard)` the flatten step returns one
record with zero failures, but its name is `a`, not `a/b` (the rendered
path `/c/a/b` re-splits on `/`). -/
theorem c1_counterexample :
    LemmyCommunity.from_opml
        (subscribed_to_opml_body [⟨"example.org", "a/b", none, none, none, false⟩]
          false none)
      = .ok ([⟨"example.org", "a", none, none, none, false⟩], 0) := by
  simp only [subscribed_to_opml_body, if_false, Bool.false_eq_true, List.map_cons,
    List.map_nil, LemmyCommunity.from_opml, walkOutlines, LemmyCommunity.to_outline]
  simp only [LemmyCommunity.from_opml_loop, LemmyCommunity.from_outline,
    LemmyCommunity.from_url_opt, Outline.htmlUrl]
  decide

/-- C1 (amended): for every list of community records whose names contain
no `/` character, flattening the document built with grouping disabled and
no sort name yields exactly the input records — same host, name and
platform variant, in the same order (ids, titles and descriptions are not
carried through outline parsing) — with a failure count of zero. -/
theorem c1_amended_roundtrip (cs : List LemmyCommunity)
    (h : ∀ c ∈ cs, '/' ∉ c.name.data) :
    LemmyCommunity.from_opml (subscribed_to_opml_body cs false none)
      = .ok (cs.map (fun c => ⟨c.inst, c.name, none, none, none, c.is_kbin⟩), 0) :=
  from_opml_build_roundtrip cs h

/-- C1 witness: the round trip on a concrete two-record list containing a
standard-variant and an alternate-variant record. -/
theorem c1_witness :
    LemmyCommunity.from_opml
        (subscribed_to_opml_body
          [⟨"lemmy.ml", "rust", some 7, some "Rust", some "d", false⟩,
           ⟨"kbin.social", "tech", none, none, none, true⟩] false none)
      = .ok ([⟨"lemmy.ml", "rust", none, none, none, false⟩,
              ⟨"kbin.social", "tech", none, none, none, true⟩], 0) :=
  c1_amended_roundtrip
    [⟨"lemmy.ml", "rust", some 7, some "Rust", some "d", false⟩,
     ⟨"kbin.social", "tech", none, none, none, true⟩] (by decide)

/-! ## C2 -/

/-- C2 (code bug): flattening is supposed to tolerate malformed leaves by
counting and skipping them, and `from_opml`'s own docstring says it
returns the number of outlines "that could not be successfully parsed";
but a leaf whose `htmlUrl` is `https://example.com/c` (path `/c`, no name
segment) makes `from_url` raise `IndexError`, which neither
`from_outline` (catches `ValueError`/`AttributeError`) nor `from_opml`
(catches `ValueError`) handles, so the whole conversion aborts instead of
counting the leaf as failed. -/
theorem c2_from_opml_aborts_on_short_path :
    LemmyCommunity.from_opml
        [Outline.mk "x" (some "rss") none none
          none (some ⟨"https", "example.com", "/c", "", ""⟩) []]
      = .error .indexError := by
  simp only [LemmyCommunity.from_opml, walkOutlines, LemmyCommunity.from_opml_loop,
    LemmyCommunity.from_outline, LemmyCommunity.from_url_opt, Outline.htmlUrl]
  decide

/-! ## C7: helper lemmas about `firstSeen` and `catAppend` -/

theorem firstSeen_subset (l : List String) : ∀ x ∈ firstSeen l, x ∈ l := by
  induction l using firstSeen.induct with
  | case1 => simp [firstSeen]
  | case2 h t ih =>
    intro x hx
    rw [firstSeen] at hx
    rcases List.mem_cons.mp hx with rfl | hx'
    · exact List.mem_cons_self _ _
    · exact List.mem_cons_of_mem _ (List.mem_of_mem_filter (ih x hx'))

theorem firstSeen_nodup (l : List String) : (firstSeen l).Nodup := by
  induction l using firstSeen.induct with
  | case1 => simp [firstSeen]
  | case2 h t ih =>
    rw [firstSeen]
    refine List.nodup_cons.mpr ⟨fun hmem => ?_, ih⟩
    have hf := List.of_mem_filter (firstSeen_subset _ _ hmem)
    simp at hf

theorem firstSeen_mem (l : List String) (x : String) : x ∈ firstSeen l ↔ x ∈ l := by
  induction l using firstSeen.induct with
  | case1 => simp [firstSeen]
  | case2 h t ih =>
    rw [firstSeen]
    simp only [List.mem_cons, ih, List.mem_filter]
    constructor
    · rintro (rfl | ⟨hx, _⟩)
      · exact Or.inl rfl
      · exact Or.inr hx
    · rintro (rfl | hx)
      · exact Or.inl rfl
      · by_cases hxh : x = h
        · exact Or.inl hxh
        · exact Or.inr ⟨hx, by simp [hxh]⟩

theorem map_upd_id (rest : List (String × List Outline)) (k : String) (leaf : Outline)
    (hnotin : k ∉ rest.map Prod.fst) :
    rest.map (fun p => if p.1 == k then (p.1, p.2 ++ [leaf]) else p) = rest := by
  induction rest with
  | nil => rfl
  | cons q qs ih =>
    rw [List.map_cons, List.mem_cons, not_or] at hnotin
    have hq : ¬ ((q.1 == k) = true) := by
      simp only [beq_iff_eq]
      exact fun he => hnotin.1 he.symm
    rw [List.map_cons, if_neg hq, ih hnotin.2]

theorem map_fst_upd (cat : List (String × List Outline)) (h : String) (leaf : Outline) :
    (cat.map (fun p => if p.1 == h then (p.1, p.2 ++ [leaf]) else p)).map Prod.fst
      = cat.map Prod.fst := by
  rw [List.map_map]
  apply List.map_congr_left
  intro p _
  by_cases hp : p.1 = h <;> simp [hp]

theorem catAppend_not_mem (cat : List (String × List Outline)) (h : String) (leaf : Outline)
    (hmem : h ∉ cat.map Prod.fst) : catAppend cat h leaf = cat ++ [(h, [leaf])] := by
  induction cat with
  | nil => rfl
  | cons p rest ih =>
    obtain ⟨k, ls⟩ := p
    rw [List.map_cons, List.mem_cons, not_or] at hmem
    have hk : (k == h) = false := beq_eq_false_iff_ne.mpr (fun he => hmem.1 he.symm)
    simp [catAppend, hk, ih hmem.2]

theorem catAppend_mem (cat : List (String × List Outline)) (h : String) (leaf : Outline)
    (hnd : (cat.map Prod.fst).Nodup) (hmem : h ∈ cat.map Prod.fst) :
    catAppend cat h leaf
      = cat.map (fun p => if p.1 == h then (p.1, p.2 ++ [leaf]) else p) := by
  induction cat with
  | nil => simp at hmem
  | cons p rest ih =>
    obtain ⟨k, ls⟩ := p
    rw [List.map_cons] at hnd hmem
    by_cases hk : k = h
    · subst hk
      have hnotin : k ∉ rest.map Prod.fst := (List.nodup_cons.mp hnd).1
      have h1 : catAppend ((k, ls) :: rest) k leaf = (k, ls ++ [leaf]) :: rest := by
        simp [catAppend]
      have h2 : ((k, ls) :: rest).map (fun p => if p.1 == k then (p.1, p.2 ++ [leaf]) else p)
          = (k, ls ++ [leaf]) :: rest := by
        rw [List.map_cons, map_upd_id rest k leaf hnotin, if_pos (by simp)]
      rw [h1, h2]
    · have hk' : (k == h) = false := beq_eq_false_iff_ne.mpr hk
      have hmem' : h ∈ rest.map Prod.fst := by
        rcases List.mem_cons.mp hmem with he | hm
        · exact absurd he.symm hk
        · exact hm
      simp [catAppend, hk', ih (List.nodup_cons.mp hnd).2 hmem', if_neg hk]

theorem foldl_catAppend (f : LemmyCommunity → Outline) (cs : List LemmyCommunity) :
    ∀ (cat : List (String × List Outline)), (cat.map Prod.fst).Nodup →
      cs.foldl (fun acc c => catAppend acc c.inst (f c)) cat
        = cat.map (fun p => (p.1, p.2 ++ (cs.filter (fun x => x.inst == p.1)).map f))
          ++ (firstSeen ((cs.filter
                (fun x => decide (x.inst ∉ cat.map Prod.fst))).map (fun x => x.inst))).map
              (fun h => (h, (cs.filter (fun x => x.inst == h)).map f)) := by
  induction cs with
  | nil =>
    intro cat hnd
    simp [firstSeen]
  | cons c cs' ih =>
    intro cat hnd
    rw [List.foldl_cons]
    by_cases hmem : c.inst ∈ cat.map Prod.fst
    · rw [catAppend_mem cat c.inst (f c) hnd hmem,
        ih _ (by rw [map_fst_upd]; exact hnd), map_fst_upd]
      congr 1
      · rw [List.map_map]
        apply List.map_congr_left
        intro p hp
        by_cases hpc : p.1 = c.inst
        · have hcp : c.inst = p.1 := hpc.symm
          simp [Function.comp, hpc, List.filter_cons, List.append_assoc]
        · have hcp : ¬ c.inst = p.1 := fun he => hpc he.symm
          simp [Function.comp, hpc, hcp, List.filter_cons]
      · have hqc : (decide (c.inst ∉ cat.map Prod.fst)) = false := by simp [hmem]
        rw [show ((c :: cs').filter (fun x => decide (x.inst ∉ cat.map Prod.fst)))
            = cs'.filter (fun x => decide (x.inst ∉ cat.map Prod.fst)) from by
          simp [List.filter_cons, hmem]]
        apply List.map_congr_left
        intro h hh
        obtain ⟨x, hx, rfl⟩ := List.mem_map.mp (firstSeen_subset _ _ hh)
        have hxk : x.inst ∉ cat.map Prod.fst := by
          have hx' := List.of_mem_filter hx
          simpa using hx'
        have hxc : ¬ c.inst = x.inst := fun he => hxk (he ▸ hmem)
        simp [List.filter_cons, hxc]
    · have hndk : (c.inst :: cat.map Prod.fst).Nodup := List.nodup_cons.mpr ⟨hmem, hnd⟩
      have hnd' : ((cat ++ [(c.inst, [f c])]).map Prod.fst).Nodup := by
        simp only [List.map_append, List.map_cons, List.map_nil]
        exact ((List.perm_append_singleton _ _).nodup_iff).mpr hndk
      rw [catAppend_not_mem cat c.inst (f c) hmem, ih _ hnd']
      have hkeys : (cat ++ [(c.inst, [f c])]).map Prod.fst
          = cat.map Prod.fst ++ [c.inst] := by simp
      simp only [hkeys]
      have hqc : (decide (c.inst ∉ cat.map Prod.fst)) = true := decide_eq_true hmem
      rw [show ((c :: cs').filter (fun x => decide (x.inst ∉ cat.map Prod.fst)))
          = c :: cs'.filter (fun x => decide (x.inst ∉ cat.map Prod.fst)) from by
        simp [List.filter_cons, hmem]]
      rw [List.map_cons, firstSeen, List.map_cons, List.map_append, List.map_cons,
        List.map_nil, List.append_assoc, List.singleton_append]
      congr 1
      · -- entries already in `cat`: the new record's host differs from all of them
        apply List.map_congr_left
        intro p hp
        have hpk : p.1 ∈ cat.map Prod.fst := List.mem_map.mpr ⟨p, hp, rfl⟩
        have hcp : ¬ c.inst = p.1 := fun he => hmem (he ▸ hpk)
        simp [List.filter_cons, hcp]
      congr 1
      · -- the new singleton bucket equals the grouping node for `c.inst`
        simp [List.filter_cons, List.singleton_append]
      -- remaining new hosts
      have hlist : (cs'.filter
            (fun x => decide (x.inst ∉ cat.map Prod.fst ++ [c.inst]))).map (fun x => x.inst)
          = ((cs'.filter (fun x => decide (x.inst ∉ cat.map Prod.fst))).map
              (fun x => x.inst)).filter (fun h => h != c.inst) := by
        rw [List.filter_map, List.filter_filter]
        refine congrArg (List.map fun x : LemmyCommunity => x.inst) ?_
        apply List.filter_congr
        intro x _
        by_cases hxc : x.inst = c.inst <;>
          by_cases hxk : x.inst ∈ cat.map Prod.fst <;> simp [hxc, hxk]
      rw [hlist]
      apply List.map_congr_left
      intro h hh
      obtain ⟨x, hx, rfl⟩ := List.mem_map.mp
        (List.mem_of_mem_filter (firstSeen_subset _ _ hh))
      have hxk : x.inst ∉ cat.map Prod.fst := by
        have hx' := List.of_mem_filter hx
        simpa using hx'
      have hfh := List.of_mem_filter (firstSeen_subset _ _ hh)
      have hxc : ¬ c.inst = x.inst := fun he => by simp [← he] at hfh
      simp [List.filter_cons, hxc]

/-- C7: building with grouping enabled buckets records by host: the
document root is exactly one `type="category"` grouping node per distinct
host (the `firstSeen`/`Nodup`/membership conjuncts), the grouping nodes
appear in first-seen order of the hosts, and each grouping node for host
`h` contains the leaves of exactly the records with host `h`, in their
original relative input order. -/
theorem c7_grouping_by_host (cs : List LemmyCommunity) (sort_by : Option String) :
    subscribed_to_opml_body cs true sort_by
      = (firstSeen (cs.map (fun c => c.inst))).map
          (fun h => Outline.mk h (some "category") none none none none
            ((cs.filter (fun c => c.inst == h)).map (fun c => c.to_outline sort_by false)))
    ∧ (firstSeen (cs.map (fun c => c.inst))).Nodup
    ∧ (∀ h, h ∈ firstSeen (cs.map (fun c => c.inst)) ↔ h ∈ cs.map (fun c => c.inst)) := by
  refine ⟨?_, firstSeen_nodup _, fun h => firstSeen_mem _ h⟩
  have hfold := foldl_catAppend (fun c => c.to_outline sort_by false) cs [] (by simp)
  simp only [] at hfold
  rw [show subscribed_to_opml_body cs true sort_by
      = (cs.foldl (fun cat c => catAppend cat c.inst (c.to_outline sort_by false)) []).map
          (fun p => Outline.mk p.1 (some "category") none none none none p.2) from rfl]
  rw [hfold]
  have hfilter : (cs.filter
      (fun x => decide (x.inst ∉ List.map Prod.fst ([] : List (String × List Outline)))))
      = cs := by
    apply List.filter_eq_self.mpr
    intro a _
    simp
  rw [hfilter, List.map_nil, List.nil_append, List.map_map]
  rfl

/-- C7 witness: the specification's grouping example — records with hosts
`A`, `B`, `A` yield exactly two grouping nodes, `A` before `B`, with `A`'s
node containing the leaves for `x` then `z`. -/
theorem c7_witness :
    subscribed_to_opml_body
        [⟨"A", "x", none, none, none, false⟩, ⟨"B", "y", none, none, none, false⟩,
         ⟨"A", "z", none, none, none, false⟩] true none
      = [Outline.mk "A" (some "category") none none none none
           [LemmyCommunity.to_outline ⟨"A", "x", none, none, none, false⟩ none false,
            LemmyCommunity.to_outline ⟨"A", "z", none, none, none, false⟩ none false],
         Outline.mk "B" (some "category") none none none none
           [LemmyCommunity.to_outline ⟨"B", "y", none, none, none, false⟩ none false]] := by
  rw [(c7_grouping_by_host
      [⟨"A", "x", none, none, none, false⟩, ⟨"B", "y", none, none, none, false⟩,
       ⟨"A", "z", none, none, none, false⟩] none).1]
  simp [firstSeen]
